import Mathlib

/-!
Shallow embedding of the `gametime` crate's frequency/rate core
(`src/lib.rs`, `src/span.rs`, `src/stamp.rs`, `src/freq.rs`, `src/rate.rs`).

Machine integers (`u64`, `NonZeroU64`) are modelled as `Nat`; the theorems
that depend on absence of overflow carry the corresponding bound or
positivity hypotheses.  Rust methods taking `&mut self` are modelled as
functions returning the result together with the updated state.
-/

namespace Gametime

/-- The body of `fn gcd` in `src/lib.rs`: the loop
`while b != 0 { let temp = b; b = a % b; a = temp; }` unrolled with an
explicit iteration bound (`b` strictly decreases each iteration, so any
`fuel ≥ b` runs the loop to completion; see `gcdLoop_eq_nat_gcd`). -/
def gcdLoop : Nat → Nat → Nat → Nat
  | _, a, 0 => a
  | 0, a, _ => a
  | fuel + 1, a, b => gcdLoop fuel b (a % b)

/-- `fn gcd` from `src/lib.rs`. -/
def gcd (a b : Nat) : Nat := gcdLoop b a b

/-- The loop with enough fuel agrees with `Nat.gcd`. -/
theorem gcdLoop_eq_nat_gcd (fuel a b : Nat) (h : b ≤ fuel) :
    gcdLoop fuel a b = Nat.gcd a b := by
  induction fuel generalizing a b with
  | zero =>
    have hb : b = 0 := Nat.le_zero.mp h
    subst hb
    rw [Nat.gcd_zero_right]
    rfl
  | succ fuel ih =>
    match b with
    | 0 =>
      rw [Nat.gcd_zero_right]
      rfl
    | b + 1 =>
      have hstep : gcdLoop (fuel + 1) a (b + 1) = gcdLoop fuel (b + 1) (a % (b + 1)) := rfl
      rw [hstep, ih (b + 1) (a % (b + 1))
          (Nat.le_trans (Nat.le_of_lt_succ (Nat.mod_lt _ (Nat.succ_pos b)))
            (Nat.le_of_succ_le_succ h))]
      rw [Nat.gcd_comm (b + 1) (a % (b + 1)), ← Nat.gcd_rec (b + 1) a]
      exact Nat.gcd_comm (b + 1) a

/-- The crate's `gcd` agrees with `Nat.gcd`. -/
theorem gcd_eq_nat_gcd (a b : Nat) : gcd a b = Nat.gcd a b :=
  gcdLoop_eq_nat_gcd b a b (Nat.le_refl b)

/-- `TimeSpan` from `src/span.rs`: a nanosecond count (`nanos: u64`). -/
structure TimeSpan where
  nanos : Nat
deriving DecidableEq, Repr

/-- `TimeSpan::ZERO`. -/
def TimeSpan.ZERO : TimeSpan := ⟨0⟩

/-- `TimeSpan::NANOSECOND`. -/
def TimeSpan.NANOSECOND : TimeSpan := ⟨1⟩

/-- `TimeSpan::SECOND`. -/
def TimeSpan.SECOND : TimeSpan := ⟨1000000000⟩

/-- `TimeSpan::new`. -/
def TimeSpan.new (nanos : Nat) : TimeSpan := ⟨nanos⟩

/-- `TimeSpan::as_nanos`. -/
def TimeSpan.as_nanos (s : TimeSpan) : Nat := s.nanos

/-- `TimeStamp` from `src/stamp.rs`: stored as `nanos: NonZeroU64`, the
number of elapsed nanoseconds plus one; `start()` stores 1. -/
structure TimeStamp where
  nanos : Nat
deriving DecidableEq, Repr

/-- `TimeStamp::start`. -/
def TimeStamp.start : TimeStamp := ⟨1⟩

/-- `TimeStamp + TimeSpan` (`add_span` in the non-overflow regime:
`(stored - 1) + span` re-stored as `+ 1`, i.e. stored value plus span). -/
def TimeStamp.addSpan (t : TimeStamp) (s : TimeSpan) : TimeStamp :=
  ⟨t.nanos + s.nanos⟩

/-- `ClockStep` from `src/step.rs`. -/
structure ClockStep where
  now : TimeStamp
  step : TimeSpan
deriving DecidableEq, Repr

/-- `Frequency` from `src/freq.rs`: `count: u64` periods per cycle and
`cycle: NonZeroU64` nanoseconds per cycle. -/
structure Frequency where
  count : Nat
  cycle : Nat
deriving DecidableEq, Repr

/-- `Frequency::new`: divide both components by their gcd. -/
def Frequency.new (count cycleNanos : Nat) : Frequency :=
  let g := gcd count cycleNanos
  { count := count / g, cycle := cycleNanos / g }

/-- `Frequency::from_hz` (cycle = one second). -/
def Frequency.from_hz (value : Nat) : Frequency :=
  Frequency.new value TimeSpan.SECOND.nanos

/-- `Frequency::elements`: `span.as_nanos() * self.count`. -/
def Frequency.elements (f : Frequency) (span : TimeSpan) : Nat :=
  span.as_nanos * f.count

/-- `Frequency::period_elements`: `self.cycle`. -/
def Frequency.period_elements (f : Frequency) : Nat := f.cycle

/-- `Frequency::periods_elements`: `self.cycle * count`. -/
def Frequency.periods_elements (f : Frequency) (count : Nat) : Nat :=
  f.cycle * count

/-- `Frequency::periods_in_elements`: whole periods and remainder. -/
def Frequency.periods_in_elements (f : Frequency) (span : Nat) : Nat × Nat :=
  (span / f.cycle, span % f.cycle)

/-- `Frequency::until_next`: `self.cycle - span % self.cycle`. -/
def Frequency.until_next (f : Frequency) (span : Nat) : Nat :=
  f.cycle - span % f.cycle

/-- `Frequency::span_fitting_elements`: ceiling division by `count`, with
the `count == 0` special cases; `div_ceil` is `span/count` plus one when
the remainder is non-zero, as in Rust's `u64::div_ceil`. -/
def Frequency.span_fitting_elements (f : Frequency) (span : Nat) : Option TimeSpan :=
  match span, f.count with
  | 0, 0 => some TimeSpan.ZERO
  | _, 0 => none
  | s, c => some (TimeSpan.new (s / c + if s % c = 0 then 0 else 1))

/-- `FrequencyTicker` from `src/freq.rs`. -/
structure FrequencyTicker where
  freq : Frequency
  until_next : Nat
  now : TimeStamp
deriving DecidableEq, Repr

/-- `FrequencyTicker::with_delay`. -/
def FrequencyTicker.with_delay (freq : Frequency) (periods : Nat) (now : TimeStamp) :
    FrequencyTicker :=
  { freq := freq, until_next := freq.periods_elements (1 + periods), now := now }

/-- `FrequencyTicker::new` (delay 0). -/
def FrequencyTicker.new (freq : Frequency) (now : TimeStamp) : FrequencyTicker :=
  FrequencyTicker.with_delay freq 0 now

/-- `Frequency::ticker`. -/
def Frequency.ticker (f : Frequency) (start : TimeStamp) : FrequencyTicker :=
  FrequencyTicker.new f start

/-- `FrequencyTicker::next_tick`:
`Some(self.now + self.freq.span_fitting_elements(self.until_next)?)`. -/
def FrequencyTicker.next_tick (t : FrequencyTicker) : Option TimeStamp :=
  (t.freq.span_fitting_elements t.until_next).map (fun s => t.now.addSpan s)

/-- `FrequencyTickerIter` from `src/freq.rs`. -/
structure FrequencyTickerIter where
  span : Nat
  freq : Frequency
  until_next : Nat
  accumulated : Nat
  now : TimeStamp
deriving DecidableEq, Repr

/-- `FrequencyTicker::ticks`: builds the iterator from a snapshot of the
current state, then eagerly updates `until_next` and `now`.  The `&mut self`
update is modelled by returning the new ticker alongside the iterator. -/
def FrequencyTicker.ticks (t : FrequencyTicker) (step : TimeSpan) :
    FrequencyTickerIter × FrequencyTicker :=
  let span := t.freq.elements step
  let iter : FrequencyTickerIter :=
    { span := span, freq := t.freq, until_next := t.until_next,
      accumulated := 0, now := t.now }
  let until_next :=
    if t.until_next ≤ span then t.freq.until_next (span - t.until_next)
    else t.until_next - span
  (iter, { freq := t.freq, until_next := until_next, now := t.now.addSpan step })

/-- `FrequencyTickerIter::ticks`: the closed-form tick count. -/
def FrequencyTickerIter.ticks (it : FrequencyTickerIter) : Nat :=
  if it.span < it.until_next then 0
  else 1 + (it.freq.periods_in_elements (it.span - it.until_next)).1

/-- `FrequencyTicker::tick_count`: `self.ticks(step).ticks()`. -/
def FrequencyTicker.tick_count (t : FrequencyTicker) (step : TimeSpan) :
    Nat × FrequencyTicker :=
  let p := t.ticks step
  (p.1.ticks, p.2)

/-- `FrequencyTicker::set_frequency`. -/
def FrequencyTicker.set_frequency (t : FrequencyTicker) (freq : Frequency)
    (clip_period : Bool) : FrequencyTicker :=
  let t := { t with freq := freq }
  if clip_period then
    if freq.period_elements < t.until_next then
      { t with until_next := freq.period_elements }
    else t
  else t

/-- `<FrequencyTickerIter as Iterator>::next`, returning the item together
with the advanced iterator (`None` when the iterator is exhausted). -/
def FrequencyTickerIter.next (it : FrequencyTickerIter) :
    Option (ClockStep × FrequencyTickerIter) :=
  if 0 < it.accumulated then
    some ({ now := it.now, step := TimeSpan.ZERO },
      { it with accumulated := it.accumulated - 1 })
  else if it.span < it.until_next then
    none
  else
    let next := (it.freq.span_fitting_elements it.until_next).getD TimeSpan.ZERO
    let advance := it.freq.elements next
    let pr := it.freq.periods_in_elements (advance - it.until_next)
    let now := it.now.addSpan next
    some ({ now := now, step := next },
      { span := it.span - advance, freq := it.freq,
        until_next := it.freq.period_elements - pr.2,
        accumulated := pr.1, now := now })

/-- Number of items produced by running the iterator at most `fuel` steps. -/
def iterCount (fuel : Nat) (it : FrequencyTickerIter) : Nat :=
  match fuel with
  | 0 => 0
  | fuel + 1 =>
    match it.next with
    | none => 0
    | some (_, it') => iterCount fuel it' + 1

/-- Items produced by running the iterator at most `fuel` steps. -/
def iterList (fuel : Nat) (it : FrequencyTickerIter) : List ClockStep :=
  match fuel with
  | 0 => []
  | fuel + 1 =>
    match it.next with
    | none => []
    | some (cs, it') => cs :: iterList fuel it'

/-- `ClockRate` from `src/rate.rs`. -/
structure ClockRate where
  now : TimeStamp
  nom : Nat
  denom : Nat
  until_next : Nat
deriving DecidableEq, Repr

/-- `ClockRate::new`. -/
def ClockRate.new : ClockRate :=
  { now := TimeStamp.start, nom := 1, denom := 1, until_next := 0 }

/-- `ClockRate::set_rate_ratio` (stores the ratio unreduced). -/
def ClockRate.set_rate_ratio (c : ClockRate) (nom denom : Nat) : ClockRate :=
  { c with nom := nom, denom := denom }

/-- `ClockRate::pause`: sets the numerator to 0. -/
def ClockRate.pause (c : ClockRate) : ClockRate :=
  { c with nom := 0 }

/-- `ClockRate::step`.  The negative-span assertion of the source is vacuous
here since spans are modelled as `Nat`. -/
def ClockRate.step (c : ClockRate) (span : TimeSpan) : ClockStep × ClockRate :=
  let nanos := span.as_nanos
  let nom_nanos := nanos * c.nom
  if nom_nanos < c.until_next then
    ({ now := c.now, step := TimeSpan.ZERO },
      { c with until_next := c.until_next - nom_nanos })
  else
    let clock_nanos := (nom_nanos - c.until_next) / c.denom
    let nom_nanos_left := (nom_nanos - c.until_next) % c.denom
    let until_next := c.denom - nom_nanos_left
    let clock_span := TimeSpan.new clock_nanos
    let now := c.now.addSpan clock_span
    ({ now := now, step := clock_span },
      { now := now, nom := c.nom, denom := c.denom, until_next := until_next })

/-- `ClockRate::step` applied to a list of spans in order, collecting the
returned `ClockStep`s (models a sequence of `step` calls). -/
def ClockRate.stepAll (c : ClockRate) : List TimeSpan → List ClockStep × ClockRate
  | [] => ([], c)
  | s :: rest =>
    let p := c.step s
    let q := p.2.stepAll rest
    (p.1 :: q.1, q.2)

/-- `ClockRate::ticker`: cross-reduces the rate ratio against the frequency
and multiplies the two rationals. -/
def ClockRate.ticker (c : ClockRate) (freq : Frequency) : FrequencyTicker :=
  let gcd1 := gcd c.nom freq.cycle
  let gcd2 := gcd freq.count c.denom
  let nom := c.nom / gcd1
  let denom := c.denom / gcd2
  let count := freq.count / gcd2
  let period := freq.cycle / gcd1
  let count := nom * count
  FrequencyTicker.new { count := count, cycle := denom * period } c.now

/-- `ftor` from `src/rate.rs` on the input `f32::INFINITY`: after
`value.max(0.0)` the `value == f32::INFINITY` branch is taken and
returns `(1, 0)` before any floating-point search runs; this branch
involves only exact comparisons, so the pair it returns is exact. -/
def ftor_infinity : Nat × Nat := (1, 0)

/-- `rate2ratio`'s conversion of `ftor`'s denominator through
`NonZeroU64::new(d).unwrap()`: `none` models the panic on `d == 0`. -/
def rate2ratio_checked (p : Nat × Nat) : Option (Nat × Nat) :=
  if p.2 = 0 then none else some p

/-- Helper: `step` on a paused clock (numerator 0) returns the unchanged
`now` with a zero step and preserves `nom`, `denom` and `now`. -/
theorem step_of_nom_zero (c : ClockRate) (s : TimeSpan) (h0 : c.nom = 0)
    (hd : 0 < c.denom) :
    (c.step s).1 = { now := c.now, step := TimeSpan.ZERO } ∧
      (c.step s).2.nom = 0 ∧ (c.step s).2.denom = c.denom ∧
      (c.step s).2.now = c.now := by
  unfold ClockRate.step
  rcases c with ⟨now, nom, denom, until_next⟩
  simp only at h0
  subst h0
  simp only [TimeSpan.as_nanos, Nat.mul_zero, TimeSpan.ZERO, TimeSpan.new,
    TimeStamp.addSpan]
  by_cases h : 0 < until_next
  · simp [h]
  · simp only [h, if_false]
    have hu : until_next = 0 := Nat.eq_zero_of_not_pos h
    subst hu
    simp

/-- C8: after `pause()` (numerator set to 0), every subsequent `step(span)`
call returns `ClockStep { now: unchanged, step: TimeSpan::ZERO }`, for any
sequence of non-negative spans (spans are `Nat` nanoseconds here); the
clock's `now` never moves.  `hd` is the `NonZeroU64` invariant of `denom`. -/
theorem pause_steps_return_zero (c : ClockRate) (spans : List TimeSpan)
    (hd : 0 < c.denom) :
    (c.pause.stepAll spans).1 =
      spans.map (fun _ => { now := c.now, step := TimeSpan.ZERO }) ∧
      (c.pause.stepAll spans).2.now = c.now := by
  have key : ∀ (spans : List TimeSpan) (c' : ClockRate), c'.nom = 0 →
      c'.denom = c.denom → c'.now = c.now →
      (c'.stepAll spans).1 =
        spans.map (fun _ => ({ now := c.now, step := TimeSpan.ZERO } : ClockStep)) ∧
        (c'.stepAll spans).2.now = c.now := by
    intro spans
    induction spans with
    | nil => intro c' _ _ hnow; exact ⟨rfl, hnow⟩
    | cons s rest ih =>
      intro c' h0 hden hnow
      have hd' : 0 < c'.denom := hden ▸ hd
      obtain ⟨h1, h2, h3, h4⟩ := step_of_nom_zero c' s h0 hd'
      have := ih (c'.step s).2 h2 (h3.trans hden) (h4.trans hnow)
      simp only [ClockRate.stepAll, List.map, this.1, this.2, and_true]
      rw [h1, hnow]
  exact key spans c.pause rfl rfl rfl

/-- Witness for `pause_steps_return_zero` at a concrete clock and spans. -/
theorem pause_steps_return_zero_witness :
    0 < ClockRate.new.denom ∧
      (ClockRate.new.pause.stepAll
          [TimeSpan.new 5, TimeSpan.new 0, TimeSpan.SECOND]).1 =
        [TimeSpan.new 5, TimeSpan.new 0, TimeSpan.SECOND].map
          (fun _ => { now := ClockRate.new.now, step := TimeSpan.ZERO }) :=
  ⟨by decide, (pause_steps_return_zero ClockRate.new _ (by decide)).1⟩

/-- C9: a `Frequency` built by `new` with `count == 0` never ticks: any
ticker created from it (`new` is `with_delay` with 0 periods) reports
`tick_count = 0` for every span and `next_tick() = None`. -/
theorem zero_count_frequency_never_ticks (cycleNanos periods : Nat)
    (hcy : 0 < cycleNanos) (now : TimeStamp) (s : TimeSpan) :
    ((FrequencyTicker.with_delay (Frequency.new 0 cycleNanos) periods now).tick_count s).1
        = 0 ∧
      (FrequencyTicker.with_delay (Frequency.new 0 cycleNanos) periods now).next_tick
        = none := by
  have hf : Frequency.new 0 cycleNanos = { count := 0, cycle := 1 } := by
    unfold Frequency.new
    simp [gcd_eq_nat_gcd, Nat.gcd_zero_left, Nat.zero_div, Nat.div_self hcy]
  rw [hf]
  constructor
  · simp [FrequencyTicker.tick_count, FrequencyTicker.ticks,
      FrequencyTicker.with_delay, FrequencyTickerIter.ticks,
      Frequency.elements, Frequency.periods_elements, TimeSpan.as_nanos]
  · have harg : (1 : Nat) * (1 + periods) = periods + 1 := by omega
    simp only [FrequencyTicker.next_tick, FrequencyTicker.with_delay,
      Frequency.periods_elements, harg]
    rfl

/-- Witness for `zero_count_frequency_never_ticks` at cycle = 10 ns,
delay 5, a 1 µs span. -/
theorem zero_count_frequency_never_ticks_witness :
    0 < 10 ∧
      ((FrequencyTicker.with_delay (Frequency.new 0 10) 5 TimeStamp.start).tick_count
          (TimeSpan.new 1000)).1 = 0 ∧
      (FrequencyTicker.with_delay (Frequency.new 0 10) 5 TimeStamp.start).next_tick
        = none :=
  ⟨by decide,
    zero_count_frequency_never_ticks 10 5 (by decide) TimeStamp.start (TimeSpan.new 1000)⟩

/-- C3: a 3 Hz ticker started at the epoch and fed exactly one second
produces exactly three ticks, at nanosecond offsets 333333334, 666666667
and 1000000000 from the start (ceiling rounding with carried remainder);
fuel 10 exceeds the number of produced items, so the list is the full
materialization of the iterator. -/
theorem three_hz_one_second_scenario :
    iterList 10 (((Frequency.from_hz 3).ticker TimeStamp.start).ticks TimeSpan.SECOND).1 =
      [{ now := TimeStamp.start.addSpan (TimeSpan.new 333333334),
         step := TimeSpan.new 333333334 },
       { now := TimeStamp.start.addSpan (TimeSpan.new 666666667),
         step := TimeSpan.new 333333333 },
       { now := TimeStamp.start.addSpan (TimeSpan.new 1000000000),
         step := TimeSpan.new 333333333 }] := by decide

/-- C10: `ticks` updates the ticker's entire state (`until_next` and `now`)
at the moment of the call — the returned ticker is the eager closed-form
update of the input state — and the returned iterator holds a value copy of
the pre-call state.  Since the iterator is a separate value and stepping it
is a function of the iterator alone, the ticker's post-call state is the
same whether the iterator is consumed fully, partially, or not at all. -/
theorem ticks_updates_state_eagerly (t : FrequencyTicker) (s : TimeSpan) :
    (t.ticks s).2 =
      { freq := t.freq,
        until_next :=
          if t.until_next ≤ t.freq.elements s then
            t.freq.until_next (t.freq.elements s - t.until_next)
          else t.until_next - t.freq.elements s,
        now := t.now.addSpan s } ∧
      (t.ticks s).1 =
        { span := t.freq.elements s, freq := t.freq, until_next := t.until_next,
          accumulated := 0, now := t.now } :=
  ⟨rfl, rfl⟩

/-- C7 (failing input): on `rate = f32::INFINITY`, `ftor` returns the
sentinel pair `(1, 0)` and `rate2ratio` then feeds denominator 0 to
`NonZeroU64::new(..).unwrap()`, which panics (`none` here) — `set_rate`
is not total. -/
theorem rate2ratio_infinity_panics : rate2ratio_checked ftor_infinity = none := rfl

/-- C6 (counterexample): with the rate ratio 2/2 (stored unreduced by
`set_rate_ratio`) and the reduced frequency 1/1, `ClockRate::ticker`
produces the frequency 2/2, whose components have gcd 2 ≠ 1 — the
cross-reduction in `ticker` does not re-reduce the product. -/
theorem rate_ticker_unreduced_counterexample :
    Nat.gcd ((ClockRate.new.set_rate_ratio 2 2).ticker (Frequency.new 1 1)).freq.count
        ((ClockRate.new.set_rate_ratio 2 2).ticker (Frequency.new 1 1)).freq.cycle
      ≠ 1 := by decide

/-- Helper: a fraction in lowest terms with positive denominator is unique:
equal cross-products force equal numerators and denominators. -/
theorem reduced_pair_unique (a b c d : Nat) (hb : 0 < b) (hd : 0 < d)
    (hab : Nat.Coprime a b) (hcd : Nat.Coprime c d) (h : a * d = c * b) :
    a = c ∧ b = d := by
  have hbd : b ∣ d := by
    have h1 : b ∣ a * d := ⟨c, h.trans (Nat.mul_comm c b)⟩
    exact (Nat.coprime_comm.mp hab).dvd_of_dvd_mul_left h1
  have hdb : d ∣ b := by
    have h1 : d ∣ c * b := ⟨a, h.symm.trans (Nat.mul_comm a d)⟩
    exact (Nat.coprime_comm.mp hcd).dvd_of_dvd_mul_left h1
  have hbd' : b = d := Nat.dvd_antisymm hbd hdb
  subst hbd'
  exact ⟨Nat.eq_of_mul_eq_mul_right hb h, rfl⟩

/-- Helper: the two fields produced by `Frequency::new`. -/
theorem frequency_new_fields (count cycleNanos : Nat) :
    Frequency.new count cycleNanos =
      { count := count / Nat.gcd count cycleNanos,
        cycle := cycleNanos / Nat.gcd count cycleNanos } := by
  unfold Frequency.new
  rw [gcd_eq_nat_gcd]

/-- C5: for every `count` and non-zero `cycle`, `Frequency::new` stores a
pair with gcd 1 that represents the same rational number, and any two
frequencies built by `new` from equivalent ratios have identical fields. -/
theorem frequency_new_reduced (count cycleNanos : Nat) (hcy : 0 < cycleNanos) :
    Nat.gcd (Frequency.new count cycleNanos).count
        (Frequency.new count cycleNanos).cycle = 1 ∧
      (Frequency.new count cycleNanos).count * cycleNanos =
        count * (Frequency.new count cycleNanos).cycle ∧
      ∀ count2 cycle2 : Nat, 0 < cycle2 → count * cycle2 = count2 * cycleNanos →
        Frequency.new count cycleNanos = Frequency.new count2 cycle2 := by
  have hg : 0 < Nat.gcd count cycleNanos := Nat.gcd_pos_of_pos_right _ hcy
  obtain ⟨a, ha⟩ := Nat.gcd_dvd_left count cycleNanos
  obtain ⟨y, hy⟩ := Nat.gcd_dvd_right count cycleNanos
  have hca : count / Nat.gcd count cycleNanos = a :=
    Nat.div_eq_of_eq_mul_right hg ha
  have hcyy : cycleNanos / Nat.gcd count cycleNanos = y :=
    Nat.div_eq_of_eq_mul_right hg hy
  have hypos : 0 < y := by
    rcases Nat.eq_zero_or_pos y with h0 | h
    · rw [h0, Nat.mul_zero] at hy; omega
    · exact h
  refine ⟨?_, ?_, ?_⟩
  · rw [frequency_new_fields]
    exact Nat.coprime_div_gcd_div_gcd hg
  · rw [frequency_new_fields]
    simp only [hca, hcyy]
    calc a * cycleNanos = a * (Nat.gcd count cycleNanos * y) := by rw [← hy]
    _ = Nat.gcd count cycleNanos * a * y := by ring
    _ = count * y := by rw [← ha]
  · intro count2 cycle2 hcy2 hcross
    have hg2 : 0 < Nat.gcd count2 cycle2 := Nat.gcd_pos_of_pos_right _ hcy2
    obtain ⟨a2, ha2⟩ := Nat.gcd_dvd_left count2 cycle2
    obtain ⟨y2, hy2⟩ := Nat.gcd_dvd_right count2 cycle2
    have hca2 : count2 / Nat.gcd count2 cycle2 = a2 :=
      Nat.div_eq_of_eq_mul_right hg2 ha2
    have hcyy2 : cycle2 / Nat.gcd count2 cycle2 = y2 :=
      Nat.div_eq_of_eq_mul_right hg2 hy2
    have hypos2 : 0 < y2 := by
      rcases Nat.eq_zero_or_pos y2 with h0 | h
      · rw [h0, Nat.mul_zero] at hy2; omega
      · exact h
    have hcop1 : Nat.Coprime a y := by
      have := Nat.coprime_div_gcd_div_gcd hg
      rwa [hca, hcyy] at this
    have hcop2 : Nat.Coprime a2 y2 := by
      have := Nat.coprime_div_gcd_div_gcd hg2
      rwa [hca2, hcyy2] at this
    have hcross' : a * y2 = a2 * y := by
      have hexp : Nat.gcd count cycleNanos * Nat.gcd count2 cycle2 * (a * y2) =
          Nat.gcd count cycleNanos * Nat.gcd count2 cycle2 * (a2 * y) := by
        calc Nat.gcd count cycleNanos * Nat.gcd count2 cycle2 * (a * y2)
            = (Nat.gcd count cycleNanos * a) * (Nat.gcd count2 cycle2 * y2) := by ring
        _ = count * cycle2 := by rw [← ha, ← hy2]
        _ = count2 * cycleNanos := hcross
        _ = (Nat.gcd count2 cycle2 * a2) * (Nat.gcd count cycleNanos * y) := by
              rw [← ha2, ← hy]
        _ = Nat.gcd count cycleNanos * Nat.gcd count2 cycle2 * (a2 * y) := by ring
      exact Nat.eq_of_mul_eq_mul_left (Nat.mul_pos hg hg2) hexp
    obtain ⟨hac, hyc⟩ :=
      reduced_pair_unique a y a2 y2 hypos hypos2 hcop1 hcop2 hcross'
    rw [frequency_new_fields, frequency_new_fields, hca, hcyy, hca2, hcyy2,
      hac, hyc]

/-- Witness for `frequency_new_reduced` at `Frequency::new(4, 6)` against
the equivalent ratio 2/3. -/
theorem frequency_new_reduced_witness :
    0 < 6 ∧ Nat.gcd (Frequency.new 4 6).count (Frequency.new 4 6).cycle = 1 ∧
      Frequency.new 4 6 = Frequency.new 2 3 :=
  ⟨by decide, (frequency_new_reduced 4 6 (by decide)).1,
    (frequency_new_reduced 4 6 (by decide)).2.2 2 3 (by decide) (by decide)⟩

/-- C6 (amended): when the clock's rate ratio is reduced
(`gcd(nom, denom) = 1`) and the frequency is reduced (as every Frequency
built by `Frequency::new` is), `ClockRate::ticker` starts the ticker at the
clock's `now` and its frequency is the product `(nom*count)/(denom*cycle)`
in lowest terms (stored gcd is 1). -/
theorem rate_ticker_reduced (c : ClockRate) (f : Frequency) (hd : 0 < c.denom)
    (hcy : 0 < f.cycle) (h1 : Nat.gcd c.nom c.denom = 1)
    (h2 : Nat.gcd f.count f.cycle = 1) :
    (c.ticker f).now = c.now ∧
      Nat.gcd (c.ticker f).freq.count (c.ticker f).freq.cycle = 1 ∧
      (c.ticker f).freq.count * (c.denom * f.cycle) =
        (c.nom * f.count) * (c.ticker f).freq.cycle := by
  have hfields : c.ticker f =
      FrequencyTicker.new
        { count := (c.nom / Nat.gcd c.nom f.cycle) * (f.count / Nat.gcd f.count c.denom),
          cycle := (c.denom / Nat.gcd f.count c.denom) * (f.cycle / Nat.gcd c.nom f.cycle) }
        c.now := by
    unfold ClockRate.ticker
    rw [gcd_eq_nat_gcd, gcd_eq_nat_gcd]
  have hg1 : 0 < Nat.gcd c.nom f.cycle := Nat.gcd_pos_of_pos_right _ hcy
  have hg2 : 0 < Nat.gcd f.count c.denom := Nat.gcd_pos_of_pos_right _ hd
  obtain ⟨n1, hn1⟩ := Nat.gcd_dvd_left c.nom f.cycle
  obtain ⟨y1, hy1⟩ := Nat.gcd_dvd_right c.nom f.cycle
  obtain ⟨k2, hk2⟩ := Nat.gcd_dvd_left f.count c.denom
  obtain ⟨d2, hd2⟩ := Nat.gcd_dvd_right f.count c.denom
  have e1 : c.nom / Nat.gcd c.nom f.cycle = n1 :=
    Nat.div_eq_of_eq_mul_right hg1 hn1
  have e2 : f.cycle / Nat.gcd c.nom f.cycle = y1 :=
    Nat.div_eq_of_eq_mul_right hg1 hy1
  have e3 : f.count / Nat.gcd f.count c.denom = k2 :=
    Nat.div_eq_of_eq_mul_right hg2 hk2
  have e4 : c.denom / Nat.gcd f.count c.denom = d2 :=
    Nat.div_eq_of_eq_mul_right hg2 hd2
  refine ⟨by rw [hfields]; rfl, ?_, ?_⟩
  · rw [hfields]
    show Nat.gcd ((c.nom / Nat.gcd c.nom f.cycle) * (f.count / Nat.gcd f.count c.denom))
        ((c.denom / Nat.gcd f.count c.denom) * (f.cycle / Nat.gcd c.nom f.cycle)) = 1
    rw [e1, e2, e3, e4]
    have cop_n1_y1 : Nat.Coprime n1 y1 := by
      have := Nat.coprime_div_gcd_div_gcd hg1
      rwa [e1, e2] at this
    have cop_k2_d2 : Nat.Coprime k2 d2 := by
      have := Nat.coprime_div_gcd_div_gcd hg2
      rwa [e3, e4] at this
    have cop_n1_d2 : Nat.Coprime n1 d2 :=
      Nat.Coprime.coprime_dvd_right (hd2 ▸ Nat.dvd_mul_left d2 _)
        (Nat.Coprime.coprime_dvd_left (hn1 ▸ Nat.dvd_mul_left n1 _) h1)
    have cop_k2_y1 : Nat.Coprime k2 y1 :=
      Nat.Coprime.coprime_dvd_right (hy1 ▸ Nat.dvd_mul_left y1 _)
        (Nat.Coprime.coprime_dvd_left (hk2 ▸ Nat.dvd_mul_left k2 _) h2)
    exact Nat.Coprime.mul_right
      (Nat.Coprime.mul (cop_n1_d2) (cop_k2_d2))
      (Nat.Coprime.mul (cop_n1_y1) (cop_k2_y1))
  · rw [hfields]
    show ((c.nom / Nat.gcd c.nom f.cycle) * (f.count / Nat.gcd f.count c.denom)) *
        (c.denom * f.cycle) =
      (c.nom * f.count) *
        ((c.denom / Nat.gcd f.count c.denom) * (f.cycle / Nat.gcd c.nom f.cycle))
    rw [e1, e2, e3, e4]
    calc (n1 * k2) * (c.denom * f.cycle)
        = (n1 * k2) * ((Nat.gcd f.count c.denom * d2) * (Nat.gcd c.nom f.cycle * y1)) := by
          rw [← hd2, ← hy1]
    _ = ((Nat.gcd c.nom f.cycle * n1) * (Nat.gcd f.count c.denom * k2)) * (d2 * y1) := by
          ring
    _ = (c.nom * f.count) * (d2 * y1) := by rw [← hn1, ← hk2]

/-- Witness for `rate_ticker_reduced` with rate 1/3 and frequency 2/5. -/
theorem rate_ticker_reduced_witness :
    (0 < (ClockRate.new.set_rate_ratio 1 3).denom ∧
      0 < (Frequency.new 2 5).cycle ∧
      Nat.gcd (ClockRate.new.set_rate_ratio 1 3).nom
        (ClockRate.new.set_rate_ratio 1 3).denom = 1 ∧
      Nat.gcd (Frequency.new 2 5).count (Frequency.new 2 5).cycle = 1) ∧
      Nat.gcd ((ClockRate.new.set_rate_ratio 1 3).ticker (Frequency.new 2 5)).freq.count
        ((ClockRate.new.set_rate_ratio 1 3).ticker (Frequency.new 2 5)).freq.cycle = 1 :=
  ⟨⟨by decide, by decide, by decide, by decide⟩,
    (rate_ticker_reduced (ClockRate.new.set_rate_ratio 1 3) (Frequency.new 2 5)
      (by decide) (by decide) (by decide) (by decide)).2.1⟩

/-- Helper: `span_fitting_elements` is `None` exactly when the count is 0
and the element count is non-zero ("no finite span"). -/
theorem span_fitting_elements_eq_none (f : Frequency) (u : Nat) :
    f.span_fitting_elements u = none ↔ f.count = 0 ∧ u ≠ 0 := by
  unfold Frequency.span_fitting_elements
  rcases u with _ | u <;> rcases hc : f.count with _ | c <;> simp [hc]

/-- Helper: `span_fitting_elements` at non-zero count is the ceiling
division of the elements by the count. -/
theorem span_fitting_elements_of_count_ne_zero (f : Frequency) (u : Nat)
    (hc : f.count ≠ 0) :
    f.span_fitting_elements u =
      some (TimeSpan.new (u / f.count + if u % f.count = 0 then 0 else 1)) := by
  unfold Frequency.span_fitting_elements
  rcases hcc : f.count with _ | c
  · exact absurd hcc hc
  · rcases u with _ | u <;> simp [hcc]

/-- C4: `next_tick()` is consistent with the tick actually fired: whenever
the iterator returned by `ticks` produces a first item, that item's
timestamp equals the value `next_tick()` returned before the advancement.
`next_tick` takes the ticker by shared reference and is a pure function of
the state here, so repeated calls without advancing trivially return the
same value (second conjunct). -/
theorem next_tick_consistency (t : FrequencyTicker) (s : TimeSpan)
    (cs : ClockStep) (it : FrequencyTickerIter)
    (h : ((t.ticks s).1).next = some (cs, it)) :
    t.next_tick = some cs.now ∧ t.next_tick = t.next_tick := by
  refine ⟨?_, rfl⟩
  have hiter : (t.ticks s).1 =
      { span := t.freq.elements s, freq := t.freq, until_next := t.until_next,
        accumulated := 0, now := t.now } := rfl
  rw [hiter] at h
  unfold FrequencyTickerIter.next at h
  simp only [Nat.lt_irrefl, if_false] at h
  by_cases hlt : t.freq.elements s < t.until_next
  · simp [hlt] at h
  · simp only [hlt, if_false] at h
    rcases hsfe : t.freq.span_fitting_elements t.until_next with _ | v
    · obtain ⟨hc0, hu0⟩ := (span_fitting_elements_eq_none _ _).mp hsfe
      exfalso
      apply hlt
      have : t.freq.elements s = 0 := by
        unfold Frequency.elements
        rw [hc0, Nat.mul_zero]
      omega
    · simp only [hsfe, Option.getD_some] at h
      have hnow : cs.now = t.now.addSpan v := by
        have := congrArg (fun p => (Option.map Prod.fst p)) h
        simp at this
        rw [← this]
      rw [hnow]
      unfold FrequencyTicker.next_tick
      rw [hsfe]
      rfl

/-- Witness for `next_tick_consistency`: the 3-per-10ns ticker advanced by
10 ns fires its first tick at the stamp `next_tick()` predicted. -/
theorem next_tick_consistency_witness :
    (((FrequencyTicker.new (Frequency.new 3 10) TimeStamp.start).ticks
        (TimeSpan.new 10)).1).next =
      some ({ now := TimeStamp.start.addSpan (TimeSpan.new 4), step := TimeSpan.new 4 },
        { span := 18, freq := { count := 3, cycle := 10 }, until_next := 8,
          accumulated := 0, now := TimeStamp.start.addSpan (TimeSpan.new 4) }) ∧
      (FrequencyTicker.new (Frequency.new 3 10) TimeStamp.start).next_tick =
        some (TimeStamp.start.addSpan (TimeSpan.new 4)) :=
  ⟨by decide,
    (next_tick_consistency (FrequencyTicker.new (Frequency.new 3 10) TimeStamp.start)
      (TimeSpan.new 10)
      { now := TimeStamp.start.addSpan (TimeSpan.new 4), step := TimeSpan.new 4 }
      { span := 18, freq := { count := 3, cycle := 10 }, until_next := 8,
        accumulated := 0, now := TimeStamp.start.addSpan (TimeSpan.new 4) }
      (by decide)).1⟩

/-- The `until_next` update performed by `FrequencyTicker::ticks`, as a
function of the cycle, the current `until_next` and the span elements. -/
def advUntil (c u e : Nat) : Nat :=
  if u ≤ e then c - (e - u) % c else u - e

/-- The closed-form tick count of `FrequencyTickerIter::ticks`, as a
function of the cycle, the current `until_next` and the span elements. -/
def cntTicks (c u e : Nat) : Nat :=
  if e < u then 0 else 1 + (e - u) / c

/-- `ticks` updates the ticker state to `advUntil` and advances `now`. -/
theorem ticks_snd_eq (t : FrequencyTicker) (s : TimeSpan) :
    (t.ticks s).2 =
      { freq := t.freq,
        until_next := advUntil t.freq.cycle t.until_next (t.freq.elements s),
        now := t.now.addSpan s } := rfl

/-- `tick_count` returns `cntTicks`. -/
theorem tick_count_fst_eq (t : FrequencyTicker) (s : TimeSpan) :
    (t.tick_count s).1 = cntTicks t.freq.cycle t.until_next (t.freq.elements s) := rfl

/-- Helper: composing two `until_next` updates equals one update by the
summed elements. -/
theorem advUntil_comp (c u e1 e2 : Nat) (hc : 0 < c) :
    advUntil c (advUntil c u e1) e2 = advUntil c u (e1 + e2) := by
  unfold advUntil
  by_cases h1 : u ≤ e1
  · simp only [h1, if_true]
    have hr : (e1 - u) % c < c := Nat.mod_lt _ hc
    have hq : e1 - u = c * ((e1 - u) / c) + (e1 - u) % c := (Nat.div_add_mod _ _).symm
    have h12 : u ≤ e1 + e2 := Nat.le_trans h1 (Nat.le_add_right _ _)
    simp only [h12, if_true]
    have he : e1 + e2 - u = (e1 - u) + e2 := by omega
    rw [he]
    have hmod : ((e1 - u) + e2) % c = ((e1 - u) % c + e2) % c := by
      conv_lhs => rw [hq]
      rw [Nat.add_assoc, Nat.mul_add_mod]
    by_cases h2 : c - (e1 - u) % c ≤ e2
    · simp only [h2, if_true]
      have he2 : e2 - (c - (e1 - u) % c) = (e1 - u) % c + e2 - c := by omega
      have hcx : (e1 - u) % c + e2 = c + ((e1 - u) % c + e2 - c) := by omega
      have hx : ((e1 - u) % c + e2) % c = ((e1 - u) % c + e2 - c) % c := by
        conv_lhs => rw [hcx]
        rw [Nat.add_mod_left]
      rw [he2, hmod, hx]
    · simp only [h2, if_false]
      have hx : ((e1 - u) % c + e2) % c = (e1 - u) % c + e2 :=
        Nat.mod_eq_of_lt (by omega)
      rw [hmod, hx]
      omega
  · simp only [h1, if_false]
    by_cases h2 : u - e1 ≤ e2
    · have h12 : u ≤ e1 + e2 := by omega
      simp only [h2, h12, if_true]
      have : e2 - (u - e1) = e1 + e2 - u := by omega
      rw [this]
    · have h12 : ¬u ≤ e1 + e2 := by omega
      simp only [h2, h12, if_false]
      omega

/-- Helper: tick counts add across a split of the span. -/
theorem cntTicks_add (c u e1 e2 : Nat) (hc : 0 < c) :
    cntTicks c u e1 + cntTicks c (advUntil c u e1) e2 = cntTicks c u (e1 + e2) := by
  unfold cntTicks advUntil
  by_cases h1 : e1 < u
  · have h1' : ¬u ≤ e1 := by omega
    simp only [h1, h1', if_true, if_false]
    by_cases h2 : e2 < u - e1
    · have h12 : e1 + e2 < u := by omega
      simp only [h2, h12, if_true]
    · have h12 : ¬e1 + e2 < u := by omega
      simp only [h2, h12, if_false]
      have : e2 - (u - e1) = e1 + e2 - u := by omega
      rw [this]
      omega
  · have h1' : u ≤ e1 := by omega
    simp only [h1, h1', if_true, if_false]
    have hr : (e1 - u) % c < c := Nat.mod_lt _ hc
    have hq : e1 - u = c * ((e1 - u) / c) + (e1 - u) % c := (Nat.div_add_mod _ _).symm
    have h12 : ¬e1 + e2 < u := by omega
    simp only [h12, if_false]
    have he : e1 + e2 - u = (e1 - u) + e2 := by omega
    rw [he]
    have hdiv : ((e1 - u) + e2) / c = (e1 - u) / c + ((e1 - u) % c + e2) / c := by
      conv_lhs => rw [hq]
      rw [Nat.add_assoc, Nat.mul_add_div hc]
    by_cases h2 : e2 < c - (e1 - u) % c
    · simp only [h2, if_true]
      have hx : ((e1 - u) % c + e2) / c = 0 := Nat.div_eq_of_lt (by omega)
      rw [hdiv, hx]
      omega
    · simp only [h2, if_false]
      have he2 : e2 - (c - (e1 - u) % c) = (e1 - u) % c + e2 - c := by omega
      have hcx : (e1 - u) % c + e2 = ((e1 - u) % c + e2 - c) + c := by omega
      have hy : ((e1 - u) % c + e2) / c = ((e1 - u) % c + e2 - c) / c + 1 := by
        conv_lhs => rw [hcx]
        rw [Nat.add_div_right _ hc]
      rw [he2, hdiv, hy]
      omega

/-- C2: ticking by `s1` then `s2` yields the same final ticker state
(frequency, `until_next` and `now`) and the same total tick count as one
call with `s1 + s2`; `hov` is the claim's no-overflow proviso on the
element computation (vacuous over `Nat`). -/
theorem ticks_incremental_batch (t : FrequencyTicker) (s1 s2 : TimeSpan)
    (hcy : 0 < t.freq.cycle)
    (hov : (s1.nanos + s2.nanos) * t.freq.count < 2 ^ 64) :
    ((t.ticks s1).2.ticks s2).2 = (t.ticks (TimeSpan.new (s1.nanos + s2.nanos))).2 ∧
      (t.tick_count s1).1 + ((t.ticks s1).2.tick_count s2).1 =
        (t.tick_count (TimeSpan.new (s1.nanos + s2.nanos))).1 := by
  have e_add : t.freq.elements (TimeSpan.new (s1.nanos + s2.nanos)) =
      t.freq.elements s1 + t.freq.elements s2 := Nat.add_mul _ _ _
  constructor
  · rw [ticks_snd_eq (t.ticks s1).2 s2, ticks_snd_eq t s1, ticks_snd_eq t
      (TimeSpan.new (s1.nanos + s2.nanos))]
    simp only [e_add]
    congr 1
    · exact advUntil_comp _ _ _ _ hcy
    · show (t.now.addSpan s1).addSpan s2 = t.now.addSpan (TimeSpan.new (s1.nanos + s2.nanos))
      unfold TimeStamp.addSpan TimeSpan.new TimeSpan.nanos
      simp [Nat.add_assoc]
  · rw [tick_count_fst_eq t s1, tick_count_fst_eq (t.ticks s1).2 s2,
      tick_count_fst_eq t (TimeSpan.new (s1.nanos + s2.nanos)), ticks_snd_eq t s1]
    simp only [e_add]
    exact cntTicks_add _ _ _ _ hcy

/-- Witness for `ticks_incremental_batch`: 3-per-10ns ticker, spans of 7 ns
and 9 ns. -/
theorem ticks_incremental_batch_witness :
    (0 < (FrequencyTicker.new (Frequency.new 3 10) TimeStamp.start).freq.cycle ∧
      ((TimeSpan.new 7).nanos + (TimeSpan.new 9).nanos) *
        (FrequencyTicker.new (Frequency.new 3 10) TimeStamp.start).freq.count < 2 ^ 64) ∧
      ((FrequencyTicker.new (Frequency.new 3 10) TimeStamp.start).tick_count
          (TimeSpan.new 7)).1 +
        (((FrequencyTicker.new (Frequency.new 3 10) TimeStamp.start).ticks
            (TimeSpan.new 7)).2.tick_count (TimeSpan.new 9)).1 =
        ((FrequencyTicker.new (Frequency.new 3 10) TimeStamp.start).tick_count
          (TimeSpan.new (((TimeSpan.new 7).nanos + (TimeSpan.new 9).nanos)))).1 :=
  ⟨⟨by decide, by decide⟩,
    (ticks_incremental_batch (FrequencyTicker.new (Frequency.new 3 10) TimeStamp.start)
      (TimeSpan.new 7) (TimeSpan.new 9) (by decide) (by decide)).2⟩

/-- Unfolding `iterCount` when the iterator is exhausted. -/
theorem iterCount_succ_none (fuel : Nat) (it : FrequencyTickerIter)
    (h : it.next = none) : iterCount (fuel + 1) it = 0 := by
  have hstep : iterCount (fuel + 1) it =
      (match it.next with
       | none => 0
       | some (_, it2) => iterCount fuel it2 + 1) := rfl
  rw [hstep, h]

/-- Unfolding `iterCount` when the iterator produces an item. -/
theorem iterCount_succ_some (fuel : Nat) (it : FrequencyTickerIter)
    (cs : ClockStep) (it' : FrequencyTickerIter) (h : it.next = some (cs, it')) :
    iterCount (fuel + 1) it = iterCount fuel it' + 1 := by
  have hstep : iterCount (fuel + 1) it =
      (match it.next with
       | none => 0
       | some (_, it2) => iterCount fuel it2 + 1) := rfl
  rw [hstep, h]

/-- `next` while accumulated ticks are pending: emit a zero-step tick. -/
theorem next_of_accum_pos (it : FrequencyTickerIter) (h : 0 < it.accumulated) :
    it.next = some ({ now := it.now, step := TimeSpan.ZERO },
      { it with accumulated := it.accumulated - 1 }) := by
  unfold FrequencyTickerIter.next
  rw [if_pos h]

/-- `next` when the remaining span is short of the next tick: `None`. -/
theorem next_of_no_tick (it : FrequencyTickerIter) (h0 : it.accumulated = 0)
    (h : it.span < it.until_next) : it.next = none := by
  unfold FrequencyTickerIter.next
  rw [if_neg (by omega), if_pos h]

/-- `next` when a tick fires (non-zero count): the explicit successor
state, with `advance = ceil(until_next / count) * count` elements. -/
theorem next_of_tick (it : FrequencyTickerIter) (h0 : it.accumulated = 0)
    (h : ¬it.span < it.until_next) (hc : it.freq.count ≠ 0) :
    it.next =
      some ({ now := it.now.addSpan (TimeSpan.new
                (it.until_next / it.freq.count +
                  if it.until_next % it.freq.count = 0 then 0 else 1)),
              step := TimeSpan.new
                (it.until_next / it.freq.count +
                  if it.until_next % it.freq.count = 0 then 0 else 1) },
        { span := it.span -
            (it.until_next / it.freq.count +
              if it.until_next % it.freq.count = 0 then 0 else 1) * it.freq.count,
          freq := it.freq,
          until_next := it.freq.cycle -
            ((it.until_next / it.freq.count +
                if it.until_next % it.freq.count = 0 then 0 else 1) * it.freq.count
              - it.until_next) % it.freq.cycle,
          accumulated :=
            ((it.until_next / it.freq.count +
                if it.until_next % it.freq.count = 0 then 0 else 1) * it.freq.count
              - it.until_next) / it.freq.cycle,
          now := it.now.addSpan (TimeSpan.new
            (it.until_next / it.freq.count +
              if it.until_next % it.freq.count = 0 then 0 else 1)) }) := by
  unfold FrequencyTickerIter.next
  rw [if_neg (by omega), if_neg h,
    span_fitting_elements_of_count_ne_zero _ _ hc]
  rfl

/-- Ceiling division: `ceil(u/c) * c` is the least multiple of `c` that is
at least `u`. -/
theorem ceil_mul_bounds (u c : Nat) (hc : 0 < c) :
    u ≤ (u / c + if u % c = 0 then 0 else 1) * c ∧
      ∀ k, u ≤ c * k → (u / c + if u % c = 0 then 0 else 1) * c ≤ c * k := by
  have hu := Nat.div_add_mod u c
  have hr : u % c < c := Nat.mod_lt _ hc
  by_cases h : u % c = 0
  · have hdvd : c ∣ u := Nat.dvd_of_mod_eq_zero h
    have hself : u / c * c = u := Nat.div_mul_cancel hdvd
    rw [if_pos h, Nat.add_zero, hself]
    exact ⟨Nat.le_refl u, fun k hk => hk⟩
  · rw [if_neg h, Nat.add_mul, Nat.one_mul, Nat.mul_comm (u / c) c]
    constructor
    · omega
    · intro k hk
      have hq : c * (u / c) < c * k := by omega
      have hqk : u / c < k := Nat.lt_of_mul_lt_mul_left hq
      have : c * (u / c) + c = c * (u / c + 1) := by ring
      rw [this]
      exact Nat.mul_le_mul_left c hqk

/-- Splitting a division by the phase `r < c`. -/
theorem div_split (c r s : Nat) (hc : 0 < c) (hr : r < c) :
    (r + s) / c = if s < c - r then 0 else 1 + (s - (c - r)) / c := by
  by_cases h : s < c - r
  · rw [if_pos h]
    exact Nat.div_eq_of_lt (by omega)
  · rw [if_neg h]
    have h1 : s - (c - r) = r + s - c := by omega
    have hcx : r + s = ((r + s) - c) + c := by omega
    rw [h1]
    conv_lhs => rw [hcx]
    rw [Nat.add_div_right _ hc]
    omega

/-- Main induction for C1: with enough fuel, iterating the tick iterator
produces `accumulated` pending ticks plus the closed-form count, provided
the state invariants hold (`until_next > 0`, the span divisible by the
count as `ticks` always produces, zero count forces zero span). -/
theorem iterCount_closed_form (fuel : Nat) :
    ∀ it : FrequencyTickerIter,
      0 < it.freq.cycle → 0 < it.until_next →
      it.freq.count ∣ it.span → (it.freq.count = 0 → it.span = 0) →
      it.span + it.accumulated + 1 ≤ fuel →
      iterCount fuel it =
        it.accumulated + cntTicks it.freq.cycle it.until_next it.span := by
  induction fuel with
  | zero =>
    intro it _ _ _ _ hf
    omega
  | succ fuel ih =>
    intro it hcy hun hdvd hzero hf
    rcases it with ⟨span, freq, u, acc, now⟩
    dsimp only at hcy hun hdvd hzero hf ⊢
    cases acc with
    | succ a =>
      rw [iterCount_succ_some fuel _ _ _
        (next_of_accum_pos ⟨span, freq, u, a + 1, now⟩ (Nat.succ_pos a))]
      show iterCount fuel ⟨span, freq, u, a, now⟩ + 1 =
        (a + 1) + cntTicks freq.cycle u span
      rw [ih ⟨span, freq, u, a, now⟩ hcy hun hdvd hzero
        (show span + a + 1 ≤ fuel by omega)]
      dsimp only
      omega
    | zero =>
      by_cases hlt : span < u
      · rw [iterCount_succ_none fuel _
          (next_of_no_tick ⟨span, freq, u, 0, now⟩ rfl hlt)]
        unfold cntTicks
        rw [if_pos hlt]
      · have hcpos : freq.count ≠ 0 := by
          intro hc0
          have := hzero hc0
          omega
        obtain ⟨hle_adv, hadv_min⟩ :=
          ceil_mul_bounds u freq.count (Nat.pos_of_ne_zero hcpos)
        obtain ⟨k, hk⟩ := hdvd
        have hadv_le : (u / freq.count +
            if u % freq.count = 0 then 0 else 1) * freq.count ≤ span := by
          rw [hk]
          exact hadv_min k (by omega)
        rw [iterCount_succ_some fuel _ _ _
          (next_of_tick ⟨span, freq, u, 0, now⟩ rfl hlt hcpos)]
        dsimp only
        set adv := (u / freq.count +
          if u % freq.count = 0 then 0 else 1) * freq.count with hadv
        have hrem : (adv - u) % freq.cycle < freq.cycle := Nat.mod_lt _ hcy
        have hperiods : (adv - u) / freq.cycle ≤ adv - u := Nat.div_le_self _ _
        have hdvd' : freq.count ∣ span - adv := by
          refine ⟨k - (u / freq.count + if u % freq.count = 0 then 0 else 1), ?_⟩
          rw [hk, hadv, Nat.mul_sub,
            Nat.mul_comm freq.count (u / freq.count + if u % freq.count = 0 then 0 else 1)]
        have hih := ih
          ⟨span - adv, freq, freq.cycle - (adv - u) % freq.cycle,
            (adv - u) / freq.cycle,
            now.addSpan (TimeSpan.new
              (u / freq.count + if u % freq.count = 0 then 0 else 1))⟩
          hcy (by dsimp only; omega) hdvd'
          (fun hc0 => absurd hc0 hcpos)
          (by dsimp only; omega)
        dsimp only at hih
        rw [hih]
        unfold cntTicks
        rw [if_neg hlt]
        have hd : span - u = (adv - u) + (span - adv) := by omega
        have hqd := Nat.div_add_mod (adv - u) freq.cycle
        have hsplit : (span - u) / freq.cycle =
            (adv - u) / freq.cycle +
              ((adv - u) % freq.cycle + (span - adv)) / freq.cycle := by
          rw [hd]
          conv_lhs => rw [← hqd]
          rw [Nat.add_assoc, Nat.mul_add_div hcy]
        have hphase := div_split freq.cycle ((adv - u) % freq.cycle)
          (span - adv) hcy hrem
        rw [hsplit, hphase]
        omega

/-- Unfolding of `set_frequency` without the intermediate binding. -/
theorem set_frequency_eq (t : FrequencyTicker) (freq : Frequency) (clip : Bool) :
    t.set_frequency freq clip =
      { freq := freq,
        until_next :=
          if clip ∧ freq.period_elements < t.until_next then freq.period_elements
          else t.until_next,
        now := t.now } := by
  unfold FrequencyTicker.set_frequency
  cases clip with
  | false => simp
  | true => by_cases h : freq.period_elements < t.until_next <;> simp [h]

/-- Ticker states reachable through the public constructors and mutators
(`new`, `with_delay`, `ticks`, `set_frequency`), with the `NonZeroU64`
cycle invariant on every frequency involved. -/
inductive Reachable : FrequencyTicker → Prop where
  | mk_new : ∀ (freq : Frequency) (now : TimeStamp), 0 < freq.cycle →
      Reachable (FrequencyTicker.new freq now)
  | mk_with_delay : ∀ (freq : Frequency) (periods : Nat) (now : TimeStamp),
      0 < freq.cycle → Reachable (FrequencyTicker.with_delay freq periods now)
  | mk_ticks : ∀ (t : FrequencyTicker) (s : TimeSpan), Reachable t →
      Reachable (t.ticks s).2
  | mk_set_frequency : ∀ (t : FrequencyTicker) (freq : Frequency) (clip : Bool),
      Reachable t → 0 < freq.cycle → Reachable (t.set_frequency freq clip)

/-- Every reachable ticker state has a positive cycle and a positive
`until_next` (the next tick is always strictly in the future). -/
theorem reachable_invariant (t : FrequencyTicker) (h : Reachable t) :
    0 < t.freq.cycle ∧ 0 < t.until_next := by
  induction h with
  | mk_new freq now hcy =>
    refine ⟨hcy, ?_⟩
    show 0 < freq.cycle * (1 + 0)
    exact Nat.mul_pos hcy (by omega)
  | mk_with_delay freq periods now hcy =>
    refine ⟨hcy, ?_⟩
    show 0 < freq.cycle * (1 + periods)
    exact Nat.mul_pos hcy (by omega)
  | mk_ticks t s ht ih =>
    obtain ⟨hcy, hun⟩ := ih
    rw [ticks_snd_eq]
    refine ⟨hcy, ?_⟩
    show 0 < advUntil t.freq.cycle t.until_next (t.freq.elements s)
    unfold advUntil
    by_cases hle : t.until_next ≤ t.freq.elements s
    · rw [if_pos hle]
      have := Nat.mod_lt (t.freq.elements s - t.until_next) hcy
      omega
    · rw [if_neg hle]
      omega
  | mk_set_frequency t freq clip ht hcy ih =>
    obtain ⟨_, hun⟩ := ih
    rw [set_frequency_eq]
    refine ⟨hcy, ?_⟩
    show 0 < if clip ∧ freq.period_elements < t.until_next
      then freq.period_elements else t.until_next
    split_ifs with h
    · exact hcy
    · exact hun

/-- C1: for every frequency, starting stamp and reachable ticker state and
every span, `tick_count(s)` equals the number of items produced by fully
iterating the `FrequencyTickerIter` returned by `ticks(s)` on the same
state (`fuel` is any bound large enough to exhaust the iterator), and this
count is the closed form: 0 if the span elements fall short of
`until_next`, else `1 + (span_elements - until_next) / period_elements`. -/
theorem tick_count_eq_iteration (t : FrequencyTicker) (s : TimeSpan)
    (ht : Reachable t) (fuel : Nat) (hfuel : t.freq.elements s + 1 ≤ fuel) :
    (t.tick_count s).1 = iterCount fuel (t.ticks s).1 ∧
      (t.tick_count s).1 =
        if t.freq.elements s < t.until_next then 0
        else 1 + (t.freq.elements s - t.until_next) / t.freq.period_elements := by
  obtain ⟨hcy, hun⟩ := reachable_invariant t ht
  have hdvd : t.freq.count ∣ t.freq.elements s := ⟨s.nanos, Nat.mul_comm _ _⟩
  have hzero : t.freq.count = 0 → t.freq.elements s = 0 := by
    intro h0
    unfold Frequency.elements
    rw [h0, Nat.mul_zero]
  have hmain := iterCount_closed_form fuel
    ⟨t.freq.elements s, t.freq, t.until_next, 0, t.now⟩
    hcy hun hdvd hzero
    (show t.freq.elements s + 0 + 1 ≤ fuel by omega)
  dsimp only at hmain
  constructor
  · have hiter : (t.ticks s).1 =
        ⟨t.freq.elements s, t.freq, t.until_next, 0, t.now⟩ := rfl
    rw [tick_count_fst_eq, hiter, hmain]
    omega
  · rw [tick_count_fst_eq]
    unfold cntTicks Frequency.period_elements
    rfl

/-- Witness for `tick_count_eq_iteration`: the 3-per-10ns ticker over a
10 ns span (3 ticks), fuel 100. -/
theorem tick_count_eq_iteration_witness :
    Reachable (FrequencyTicker.new (Frequency.new 3 10) TimeStamp.start) ∧
      ((FrequencyTicker.new (Frequency.new 3 10) TimeStamp.start).tick_count
          (TimeSpan.new 10)).1 =
        iterCount 100 ((FrequencyTicker.new (Frequency.new 3 10) TimeStamp.start).ticks
          (TimeSpan.new 10)).1 :=
  ⟨Reachable.mk_new _ _ (by decide),
    (tick_count_eq_iteration (FrequencyTicker.new (Frequency.new 3 10) TimeStamp.start)
      (TimeSpan.new 10) (Reachable.mk_new _ _ (by decide)) 100 (by decide)).1⟩

end Gametime
